import Mathlib

/-!
# Verification of the wings allocation-to-binding pipeline

Shallow embedding of `src/environment/allocations.go`:

* `Allocations` mirrors the Go struct (`ForceOutgoingIP`, `DefaultMapping`,
  `Mappings`).  Go's `map[string][]int` is modelled as an association list
  with unique keys; map iteration order is modelled by the list order.
* `nat.PortMap` is modelled by `PortMap`, an association list from the
  protocol-qualified port string to the ordered slice of `PortBinding`s.
  Reading a missing key yields the nil slice `[]`, exactly as in Go.
* `Bindings` is the fold the Go method performs: skip ports outside
  `[1, 65535]`, then append the `[::]` binding under `"<port>/tcp"` and
  `"<port>/udp"`.
* `DockerBindings` post-processes the table.  The Go loop mutates the slice
  it is iterating: `binds` is captured once (pointer + length) while
  `out[p]` shrinks on ISPN deletion, both sharing one backing array.  The
  embedding therefore threads the backing array `A` (whose length never
  changes) together with the current logical length `m`, reading `A[i]` at
  every index `i < n` of the captured slice, and models Go's runtime
  bounds-check panics with `Option`.
* `Exposed` collects the key set of `DockerBindings`.
-/

namespace Wings

/-- `nat.PortBinding`: a host address / host port pair. -/
structure PortBinding where
  hostIP : String
  hostPort : String
deriving DecidableEq, Repr

/-- `nat.PortMap`: a Go map from protocol-qualified port strings (`"8080/tcp"`)
to slices of bindings, modelled as an association list with unique keys. -/
abbrev PortMap := List (String × List PortBinding)

/-- Reading `out[k]` in Go: a missing key yields the nil slice. -/
def lookupPM (m : PortMap) (k : String) : List PortBinding :=
  match m with
  | [] => []
  | (k', v) :: rest => if k' = k then v else lookupPM rest k

/-- Writing `out[k] = v` in Go: replace the entry if the key is present,
otherwise add it. -/
def setPM (m : PortMap) (k : String) (v : List PortBinding) : PortMap :=
  match m with
  | [] => [(k, v)]
  | (k', v') :: rest => if k' = k then (k, v) :: rest else (k', v') :: setPM rest k v

/-- The key set of the map (`for port := range m`). -/
def keysPM (m : PortMap) : List String :=
  m.map Prod.fst

/-- The Go `Allocations` struct.  `mappings` is `map[string][]int`, modelled
as an association list from the IP label to the ordered port slice. -/
structure Allocations where
  forceOutgoingIP : Bool
  defaultMappingIp : String
  defaultMappingPort : Int
  mappings : List (String × List Int)
deriving DecidableEq, Repr

/-- The binding built for every valid port:
`nat.PortBinding{HostIP: "[::]", HostPort: strconv.Itoa(port)}`. -/
def ipv6Binding (port : Int) : PortBinding :=
  { hostIP := "[::]", hostPort := toString port }

/-- `nat.Port(fmt.Sprintf("%d/tcp", port))`. -/
def tcpKey (port : Int) : String :=
  toString port ++ "/tcp"

/-- `nat.Port(fmt.Sprintf("%d/udp", port))`. -/
def udpKey (port : Int) : String :=
  toString port ++ "/udp"

/-- The body of the inner loop of `Allocations.Bindings` for one `port`:
skip invalid ports, then append the IPv6 binding for TCP and UDP. -/
def addPort (out : PortMap) (port : Int) : PortMap :=
  if port < 1 ∨ port > 65535 then out
  else
    let b := ipv6Binding port
    let out1 := setPM out (tcpKey port) (lookupPM out (tcpKey port) ++ [b])
    setPM out1 (udpKey port) (lookupPM out1 (udpKey port) ++ [b])

/-- `Allocations.Bindings`: fold the two nested `range` loops over the
mappings table, starting from the empty `nat.PortMap{}`. -/
def Bindings (a : Allocations) : PortMap :=
  a.mappings.foldl (fun out e => e.2.foldl addPort out) []

/-- The loopback address the rewrite stage matches on. -/
def loopbackIP : String := "127.0.0.1"

/-- One iteration `i` of the inner loop of `DockerBindings`.

State: `A` is the shared backing array of the captured slice `binds`
(length `n`, never changes) and `m` is the current length of `out[p]`
(initially `n`, decremented by ISPN deletion).  `alloc := binds[i] = A[i]`.

* `alloc.HostIP != "127.0.0.1"`: `continue`.
* ISPN: `out[p] = append(out[p][:i], out[p][i+1:]...)` — Go panics when
  `i+1 > m` (slicing past the slice length), else it shifts the elements
  `i+1 .. m-1` of the backing array down one position and `m` drops by one.
* otherwise: `out[p][i] = PortBinding{iface, alloc.HostPort}` — Go panics
  when `i >= m`, else it overwrites index `i` in place. -/
def rewriteStep (iface : String) (ispn : Bool) (st : Option (List PortBinding × Nat))
    (i : Nat) : Option (List PortBinding × Nat) :=
  match st with
  | none => none
  | some (A, m) =>
    match A[i]? with
    | none => none
    | some alloc =>
      if alloc.hostIP ≠ loopbackIP then some (A, m)
      else if ispn then
        if i + 1 ≤ m then
          some (A.take i ++ (A.drop (i + 1)).take (m - 1 - i) ++ A.drop (m - 1), m - 1)
        else none
      else
        if i < m then some (A.set i { hostIP := iface, hostPort := alloc.hostPort }, m)
        else none

/-- The inner loop of `DockerBindings` over one captured slice `binds`:
iterate `i = 0 .. len(binds)-1`; the final value of `out[p]` is the first
`m` cells of the backing array.  `none` is a Go runtime panic. -/
def rewriteBinds (iface : String) (ispn : Bool) (binds : List PortBinding) :
    Option (List PortBinding) :=
  match (List.range binds.length).foldl (rewriteStep iface ispn) (some (binds, binds.length)) with
  | none => none
  | some (A, m) => some (A.take m)

/-- The outer loop of `DockerBindings` (`for p, binds := range out`): each
key is visited once and only its own slice is touched. -/
def rewriteTable (iface : String) (ispn : Bool) (out : PortMap) : Option PortMap :=
  out.mapM (fun e => (rewriteBinds iface ispn e.2).map (fun bs => (e.1, bs)))

/-- The process-wide Docker network configuration read by `DockerBindings`:
`config.Get().Docker.Network.Interface` and `config.Get().Docker.Network.ISPN`. -/
structure NetworkPolicy where
  interface : String
  ispn : Bool
deriving DecidableEq, Repr

/-- `Allocations.DockerBindings`: build the bindings, then rewrite every
`127.0.0.1` entry according to the network policy. -/
def DockerBindings (a : Allocations) (pol : NetworkPolicy) : Option PortMap :=
  rewriteTable pol.interface pol.ispn (Bindings a)

/-- `Allocations.Exposed`: the key set of `DockerBindings`, as a `nat.PortSet`. -/
def Exposed (a : Allocations) (pol : NetworkPolicy) : Option (List String) :=
  (DockerBindings a pol).map keysPM

/-!
## Decimal rendering

`strconv.Itoa` / `fmt.Sprintf("%d", ·)` correspond to `toString : Int → String`,
which is built on `Nat.repr`.  The claims about per-port keys need that this
rendering is injective, which we prove through an explicit specification
`decDigits` of `Nat.toDigitsCore` and a value function that inverts it.
-/

/-- The decimal digit characters of a natural number, most significant first:
the specification of what `Nat.toDigitsCore` computes in base 10. -/
def decDigits (n : Nat) : List Char :=
  if _h : n < 10 then [Nat.digitChar n]
  else decDigits (n / 10) ++ [Nat.digitChar (n % 10)]
termination_by n
decreasing_by exact Nat.div_lt_self (by omega) (by omega)

theorem toDigitsCore_eq_decDigits :
    ∀ (fuel n : Nat) (ds : List Char), n < fuel →
      Nat.toDigitsCore 10 fuel n ds = decDigits n ++ ds := by
  intro fuel
  induction fuel with
  | zero => intro n ds h; omega
  | succ f ih =>
    intro n ds h
    simp only [Nat.toDigitsCore]
    by_cases h10 : n / 10 = 0
    · have hn : n < 10 := (Nat.div_eq_zero_iff (by omega)).mp h10
      rw [if_pos h10, decDigits, dif_pos hn, Nat.mod_eq_of_lt hn]
      rfl
    · have hn : ¬ n < 10 := fun hlt => h10 ((Nat.div_eq_zero_iff (by omega)).mpr hlt)
      have hlt : n / 10 < f :=
        Nat.lt_of_lt_of_le (Nat.div_lt_self (by omega) (by omega)) (by omega)
      rw [if_neg h10, ih (n / 10) _ hlt]
      conv_rhs => rw [decDigits, dif_neg hn]
      simp

theorem natRepr_eq_decDigits (n : Nat) : Nat.repr n = (decDigits n).asString := by
  show (Nat.toDigits 10 n).asString = (decDigits n).asString
  rw [Nat.toDigits, toDigitsCore_eq_decDigits (n + 1) n [] (Nat.lt_succ_self n),
    List.append_nil]

/-- The numeric value of a decimal digit character. -/
def digitVal (c : Char) : Nat := c.toNat - 48

/-- The numeric value of a most-significant-first decimal digit string. -/
def digitsVal (l : List Char) : Nat := l.foldl (fun acc c => 10 * acc + digitVal c) 0

theorem digitVal_digitChar (d : Nat) (h : d < 10) : digitVal (Nat.digitChar d) = d := by
  interval_cases d <;> decide

theorem digitsVal_decDigits (n : Nat) : digitsVal (decDigits n) = n := by
  induction n using Nat.strong_induction_on with
  | _ n ih =>
    rw [decDigits]
    split
    · next h =>
      simp [digitsVal, List.foldl, digitVal_digitChar n h]
    · next h =>
      have ih' := ih (n / 10) (Nat.div_lt_self (by omega) (by omega))
      rw [digitsVal] at ih' ⊢
      rw [List.foldl_append, ih']
      simp only [List.foldl, digitVal_digitChar (n % 10) (Nat.mod_lt n (by omega))]
      omega

theorem natRepr_injective {m n : Nat} (h : Nat.repr m = Nat.repr n) : m = n := by
  rw [natRepr_eq_decDigits, natRepr_eq_decDigits] at h
  have hdata : decDigits m = decDigits n := congrArg String.data h
  rw [← digitsVal_decDigits m, ← digitsVal_decDigits n, hdata]

theorem decDigits_digit_mem : ∀ n : Nat, ∀ c ∈ decDigits n, ∃ d, d < 10 ∧ c = Nat.digitChar d := by
  intro n
  induction n using Nat.strong_induction_on with
  | _ n ih =>
    intro c hc
    rw [decDigits] at hc
    split at hc
    · next h =>
      rw [List.mem_singleton] at hc
      exact ⟨n, h, hc⟩
    · next h =>
      rw [List.mem_append, List.mem_singleton] at hc
      rcases hc with hc | hc
      · exact ih (n / 10) (Nat.div_lt_self (by omega) (by omega)) c hc
      · exact ⟨n % 10, Nat.mod_lt n (by omega), hc⟩

theorem decDigits_ne_dash_cons (m : Nat) (l : List Char) : decDigits m ≠ '-' :: l := by
  intro h
  have hmem : '-' ∈ decDigits m := by rw [h]; exact List.mem_cons_self _ _
  obtain ⟨d, hd, hc⟩ := decDigits_digit_mem m '-' hmem
  interval_cases d <;> exact absurd hc (by decide)

theorem toString_int_ofNat (m : Nat) : toString (Int.ofNat m) = Nat.repr m := rfl

theorem toString_int_negSucc (m : Nat) :
    toString (Int.negSucc m) = "-" ++ Nat.repr (m + 1) := rfl

theorem int_toString_injective : ∀ p q : Int, toString p = toString q → p = q := by
  intro p q h
  cases p with
  | ofNat m =>
    cases q with
    | ofNat n =>
      rw [toString_int_ofNat, toString_int_ofNat] at h
      exact congrArg Int.ofNat (natRepr_injective h)
    | negSucc n =>
      rw [toString_int_ofNat, toString_int_negSucc, natRepr_eq_decDigits,
        natRepr_eq_decDigits] at h
      have hdata := congrArg String.data h
      rw [String.data_append] at hdata
      have hdata' : decDigits m = '-' :: decDigits (n + 1) := hdata
      exact absurd hdata' (decDigits_ne_dash_cons m _)
  | negSucc m =>
    cases q with
    | ofNat n =>
      rw [toString_int_negSucc, toString_int_ofNat, natRepr_eq_decDigits,
        natRepr_eq_decDigits] at h
      have hdata := congrArg String.data h
      rw [String.data_append] at hdata
      have hdata' : decDigits n = '-' :: decDigits (m + 1) := hdata.symm
      exact absurd hdata' (decDigits_ne_dash_cons n _)
    | negSucc n =>
      rw [toString_int_negSucc, toString_int_negSucc] at h
      have hdata := congrArg String.data h
      rw [String.data_append, String.data_append] at hdata
      have h2 := (List.append_inj hdata rfl).2
      have hrepr : Nat.repr (m + 1) = Nat.repr (n + 1) := String.ext h2
      have hmn : m = n := by have := natRepr_injective hrepr; omega
      rw [hmn]

/-!
## Key strings

`"<port>/tcp"` and `"<port>/udp"` keys: injectivity in the port and
disjointness of the two protocol suffixes.
-/

theorem append_tcp_cancel {x y : String} (h : x ++ "/tcp" = y ++ "/tcp") : x = y := by
  have hd := congrArg String.data h
  rw [String.data_append, String.data_append] at hd
  exact String.ext (List.append_inj' hd rfl).1

theorem append_udp_cancel {x y : String} (h : x ++ "/udp" = y ++ "/udp") : x = y := by
  have hd := congrArg String.data h
  rw [String.data_append, String.data_append] at hd
  exact String.ext (List.append_inj' hd rfl).1

theorem append_tcp_ne_udp (x y : String) : x ++ "/tcp" ≠ y ++ "/udp" := by
  intro h
  have hd := congrArg String.data h
  rw [String.data_append, String.data_append] at hd
  have hlen : ("/tcp" : String).data.length = ("/udp" : String).data.length := by decide
  exact absurd (List.append_inj' hd hlen).2 (by decide)

theorem tcpKey_injective {p q : Int} (h : tcpKey p = tcpKey q) : p = q :=
  int_toString_injective p q (append_tcp_cancel h)

theorem udpKey_injective {p q : Int} (h : udpKey p = udpKey q) : p = q :=
  int_toString_injective p q (append_udp_cancel h)

theorem tcpKey_ne_udpKey (p q : Int) : tcpKey p ≠ udpKey q :=
  append_tcp_ne_udp (toString p) (toString q)

/-!
## Association-list map lemmas
-/

theorem lookupPM_setPM_self (m : PortMap) (k : String) (v : List PortBinding) :
    lookupPM (setPM m k v) k = v := by
  induction m with
  | nil => simp [setPM, lookupPM]
  | cons e rest ih =>
    by_cases h : e.1 = k
    · simp [setPM, lookupPM, h]
    · simp [setPM, lookupPM, h, ih]

theorem lookupPM_setPM_ne (m : PortMap) (k k' : String) (v : List PortBinding)
    (h : k ≠ k') : lookupPM (setPM m k v) k' = lookupPM m k' := by
  induction m with
  | nil => simp [setPM, lookupPM, h]
  | cons e rest ih =>
    by_cases he : e.1 = k
    · simp [setPM, lookupPM, he, h]
    · simp [setPM, lookupPM, he, ih]

theorem mem_keysPM_setPM (m : PortMap) (k k' : String) (v : List PortBinding) :
    k' ∈ keysPM (setPM m k v) ↔ k' ∈ keysPM m ∨ k' = k := by
  induction m with
  | nil => simp [setPM, keysPM, eq_comm]
  | cons e rest ih =>
    by_cases he : e.1 = k
    · subst he
      simp [setPM, keysPM, eq_comm]
      tauto
    · simp only [setPM, if_neg he, keysPM, List.map_cons, List.mem_cons] at *
      tauto

theorem mem_of_mem_lookupPM (m : PortMap) (k : String) (b : PortBinding)
    (h : b ∈ lookupPM m k) : ∃ e ∈ m, b ∈ e.2 := by
  induction m with
  | nil => simp [lookupPM] at h
  | cons e rest ih =>
    rw [lookupPM] at h
    split at h
    · exact ⟨e, List.mem_cons_self _ _, h⟩
    · obtain ⟨e', he', hb⟩ := ih h
      exact ⟨e', List.mem_cons_of_mem _ he', hb⟩

theorem mem_setPM (m : PortMap) (k : String) (v : List PortBinding)
    (e : String × List PortBinding) (h : e ∈ setPM m k v) : e ∈ m ∨ e = (k, v) := by
  induction m with
  | nil => simp [setPM] at h; simp [h]
  | cons e' rest ih =>
    rw [setPM] at h
    split at h
    · rcases List.mem_cons.mp h with h | h
      · exact Or.inr h
      · exact Or.inl (List.mem_cons_of_mem _ h)
    · rcases List.mem_cons.mp h with h | h
      · exact Or.inl (h ▸ List.mem_cons_self _ _)
      · rcases ih h with h | h
        · exact Or.inl (List.mem_cons_of_mem _ h)
        · exact Or.inr h

/-!
## Characterizing `Bindings`

`contrib k L` is the sequence of bindings that the builder appends under the
key `k` while processing the port list `L`: one `ipv6Binding p` for every
valid occurrence `p` whose TCP or UDP key is `k`, in list order.
-/

/-- Whether processing port `p` appends a binding under key `k`. -/
def portHits (k : String) (p : Int) : Bool :=
  !decide (p < 1 ∨ p > 65535) && (decide (tcpKey p = k) || decide (udpKey p = k))

/-- The bindings appended under key `k` by a pass over the port list `L`. -/
def contrib (k : String) (L : List Int) : List PortBinding :=
  (L.filter (portHits k)).map ipv6Binding

theorem lookupPM_addPort (out : PortMap) (p : Int) (k : String) :
    lookupPM (addPort out p) k = lookupPM out k ++ contrib k [p] := by
  by_cases hv : p < 1 ∨ p > 65535
  · simp [addPort, hv, contrib, portHits, List.filter]
  · rw [addPort, if_neg hv]
    have htu : tcpKey p ≠ udpKey p := tcpKey_ne_udpKey p p
    by_cases hu : k = udpKey p
    · subst hu
      rw [contrib]
      simp only [List.filter, portHits, hv, decide_eq_true_eq]
      simp only [decide_True, Bool.not_false, Bool.true_and]
      rw [lookupPM_setPM_self, lookupPM_setPM_ne _ _ _ _ htu]
      simp [hv, List.map]
    · by_cases ht : k = tcpKey p
      · subst ht
        rw [contrib]
        simp only [List.filter, portHits, hv]
        rw [lookupPM_setPM_ne _ _ _ _ (fun h => hu h.symm), lookupPM_setPM_self]
        simp [hv, List.map]
      · rw [lookupPM_setPM_ne _ _ _ _ (fun h => hu h.symm),
          lookupPM_setPM_ne _ _ _ _ (fun h => ht h.symm), contrib]
        simp only [List.filter, portHits]
        have h1 : ¬ tcpKey p = k := fun h => ht h.symm
        have h2 : ¬ udpKey p = k := fun h => hu h.symm
        simp [h1, h2]

theorem lookupPM_foldl_addPort (L : List Int) (out : PortMap) (k : String) :
    lookupPM (L.foldl addPort out) k = lookupPM out k ++ contrib k L := by
  induction L generalizing out with
  | nil => simp [contrib, List.filter]
  | cons p L ih =>
    rw [List.foldl_cons, ih, lookupPM_addPort]
    rw [contrib, contrib, contrib, List.filter]
    by_cases hp : portHits k p
    · simp [hp, List.filter]
    · simp [hp, List.filter]

/-- The flattened port multiset the two nested loops of `Bindings` walk over. -/
def portsOf (a : Allocations) : List Int :=
  (a.mappings.map Prod.snd).flatten

theorem foldl_mappings_eq (ms : List (String × List Int)) (out : PortMap) :
    ms.foldl (fun out e => e.2.foldl addPort out) out =
      ((ms.map Prod.snd).flatten).foldl addPort out := by
  induction ms generalizing out with
  | nil => rfl
  | cons e ms ih => rw [List.foldl_cons, ih, List.map_cons, List.flatten, List.foldl_append]

theorem Bindings_eq_foldl (a : Allocations) :
    Bindings a = (portsOf a).foldl addPort [] :=
  foldl_mappings_eq a.mappings []

theorem lookupPM_Bindings (a : Allocations) (k : String) :
    lookupPM (Bindings a) k = contrib k (portsOf a) := by
  rw [Bindings_eq_foldl, lookupPM_foldl_addPort]
  rfl

/-- In every map the builder produces, a key is present exactly when its
binding list is non-empty (the builder only ever inserts non-empty lists). -/
def goodPM (m : PortMap) : Prop :=
  ∀ k, k ∈ keysPM m ↔ lookupPM m k ≠ []

theorem goodPM_nil : goodPM [] := by
  intro k
  simp [keysPM, lookupPM]

theorem goodPM_setPM {m : PortMap} (hm : goodPM m) {v : List PortBinding}
    (hv : v ≠ []) (k : String) : goodPM (setPM m k v) := by
  intro k'
  rw [mem_keysPM_setPM]
  by_cases h : k' = k
  · subst h
    rw [lookupPM_setPM_self]
    simp [hv]
  · rw [lookupPM_setPM_ne _ _ _ _ (fun he => h he.symm)]
    simp [h, hm k']

theorem goodPM_addPort {m : PortMap} (hm : goodPM m) (p : Int) :
    goodPM (addPort m p) := by
  rw [addPort]
  split
  · exact hm
  · exact goodPM_setPM (goodPM_setPM hm (by simp) _) (by simp) _

theorem goodPM_foldl {L : List Int} {m : PortMap} (hm : goodPM m) :
    goodPM (L.foldl addPort m) := by
  induction L generalizing m with
  | nil => exact hm
  | cons p L ih => exact ih (goodPM_addPort hm p)

theorem goodPM_Bindings (a : Allocations) : goodPM (Bindings a) := by
  rw [Bindings_eq_foldl]
  exact goodPM_foldl goodPM_nil

theorem mem_keysPM_Bindings (a : Allocations) (k : String) :
    k ∈ keysPM (Bindings a) ↔ contrib k (portsOf a) ≠ [] := by
  rw [goodPM_Bindings a k, lookupPM_Bindings]

/-!
## Every binding the builder emits has host address `[::]`
-/

/-- All binding entries in the table carry the IPv6 wildcard address. -/
def allWild (m : PortMap) : Prop :=
  ∀ e ∈ m, ∀ b ∈ e.2, b.hostIP = "[::]"

theorem allWild_setPM {m : PortMap} (hm : allWild m) {v : List PortBinding}
    (hv : ∀ b ∈ v, b.hostIP = "[::]") (k : String) : allWild (setPM m k v) := by
  intro e he b hb
  rcases mem_setPM m k v e he with h | h
  · exact hm e h b hb
  · exact hv b (by rw [h] at hb; exact hb)

theorem allWild_lookupPM {m : PortMap} (hm : allWild m) (k : String) :
    ∀ b ∈ lookupPM m k, b.hostIP = "[::]" := by
  intro b hb
  obtain ⟨e, he, hbe⟩ := mem_of_mem_lookupPM m k b hb
  exact hm e he b hbe

theorem allWild_addPort {m : PortMap} (hm : allWild m) (p : Int) :
    allWild (addPort m p) := by
  rw [addPort]
  split
  · exact hm
  · refine allWild_setPM (allWild_setPM hm ?_ _) ?_ _
    · intro b hb
      rcases List.mem_append.mp hb with h | h
      · exact allWild_lookupPM hm _ b h
      · rw [List.mem_singleton] at h
        rw [h]
        rfl
    · intro b hb
      rcases List.mem_append.mp hb with h | h
      · exact allWild_lookupPM (allWild_setPM hm (fun b hb => by
          rcases List.mem_append.mp hb with h' | h'
          · exact allWild_lookupPM hm _ b h'
          · rw [List.mem_singleton] at h'; rw [h']; rfl) _) _ b h
      · rw [List.mem_singleton] at h
        rw [h]
        rfl

theorem allWild_Bindings (a : Allocations) : allWild (Bindings a) := by
  rw [Bindings_eq_foldl]
  have : ∀ (L : List Int) (m : PortMap), allWild m → allWild (L.foldl addPort m) := by
    intro L
    induction L with
    | nil => exact fun m hm => hm
    | cons p L ih => exact fun m hm => ih _ (allWild_addPort hm p)
  exact this (portsOf a) [] (by intro e he; simp at he)

/-!
## The rewrite stage on loopback-free tables
-/

theorem foldl_rewriteStep_clean (iface : String) (ispn : Bool) (is : List Nat)
    (A : List PortBinding) (m : Nat) (hA : ∀ b ∈ A, b.hostIP ≠ loopbackIP)
    (his : ∀ i ∈ is, i < A.length) :
    is.foldl (rewriteStep iface ispn) (some (A, m)) = some (A, m) := by
  induction is with
  | nil => rfl
  | cons i is ih =>
    rw [List.foldl_cons]
    have hi : i < A.length := his i (List.mem_cons_self _ _)
    have hget : A[i]? = some A[i] := List.getElem?_eq_getElem hi
    rw [rewriteStep, hget]
    simp only [if_pos (hA A[i] (List.getElem_mem hi))]
    exact ih (fun j hj => his j (List.mem_cons_of_mem _ hj))

theorem rewriteBinds_clean (iface : String) (ispn : Bool) (binds : List PortBinding)
    (h : ∀ b ∈ binds, b.hostIP ≠ loopbackIP) :
    rewriteBinds iface ispn binds = some binds := by
  rw [rewriteBinds,
    foldl_rewriteStep_clean iface ispn _ binds binds.length h
      (fun i hi => List.mem_range.mp hi)]
  simp [List.take_length]

theorem rewriteTable_clean (iface : String) (ispn : Bool) (out : PortMap)
    (h : ∀ e ∈ out, ∀ b ∈ e.2, b.hostIP ≠ loopbackIP) :
    rewriteTable iface ispn out = some out := by
  induction out with
  | nil => rfl
  | cons e rest ih =>
    rw [rewriteTable, List.mapM_cons]
    rw [rewriteBinds_clean iface ispn e.2 (h e (List.mem_cons_self _ _))]
    have := ih (fun e' he' b hb => h e' (List.mem_cons_of_mem _ he') b hb)
    rw [rewriteTable] at this
    rw [this]
    rfl

theorem wild_not_loopback {b : PortBinding} (h : b.hostIP = "[::]") :
    b.hostIP ≠ loopbackIP := by
  rw [h, loopbackIP]
  decide

theorem dockerBindings_eq_Bindings (a : Allocations) (pol : NetworkPolicy) :
    DockerBindings a pol = some (Bindings a) := by
  rw [DockerBindings]
  exact rewriteTable_clean _ _ _
    (fun e he b hb => wild_not_loopback (allWild_Bindings a e he b hb))

theorem exposed_eq_keys (a : Allocations) (pol : NetworkPolicy) :
    Exposed a pol = some (keysPM (Bindings a)) := by
  rw [Exposed, dockerBindings_eq_Bindings]
  rfl

/-!
## The rewrite stage with `ISPN = false`

With the isolation flag off, no deletion ever happens, so the loop is a pure
per-element replacement: every `127.0.0.1` entry gets the bridge interface
address with its host port kept, and every other entry is untouched.
-/

/-- What the non-ISPN branch does to a single entry. -/
def replaceLoopback (iface : String) (b : PortBinding) : PortBinding :=
  if b.hostIP = loopbackIP then { hostIP := iface, hostPort := b.hostPort } else b

theorem foldl_rewriteStep_false (iface : String) :
    ∀ (suf pre : List PortBinding) (m : Nat), m = pre.length + suf.length →
      (List.range' pre.length suf.length).foldl (rewriteStep iface false)
          (some (pre ++ suf, m)) =
        some (pre ++ suf.map (replaceLoopback iface), m) := by
  intro suf
  induction suf with
  | nil =>
    intro pre m hm
    rfl
  | cons b rest ih =>
    intro pre m hm
    rw [List.length_cons, List.range'_succ, List.foldl_cons]
    have hget : (pre ++ b :: rest)[pre.length]? = some b := by
      rw [List.getElem?_append_right (Nat.le_refl _)]
      simp
    have hstep : rewriteStep iface false (some (pre ++ b :: rest, m)) pre.length =
        some (pre ++ replaceLoopback iface b :: rest, m) := by
      rw [rewriteStep, hget]
      by_cases hb : b.hostIP = loopbackIP
      · have hlt : pre.length < (pre ++ b :: rest).length := by
          rw [List.length_append, List.length_cons]
          omega
        have hsm : pre.length < m := by
          rw [List.length_cons] at hm
          omega
        have hset : (pre ++ b :: rest).set pre.length
            { hostIP := iface, hostPort := b.hostPort } =
            pre ++ { hostIP := iface, hostPort := b.hostPort } :: rest := by
          rw [List.set_eq_take_cons_drop _ hlt]
          congr 1
          · exact List.take_left pre (b :: rest)
          · congr 1
            rw [show pre ++ b :: rest = (pre ++ [b]) ++ rest by simp,
              show pre.length + 1 = (pre ++ [b]).length by simp]
            exact List.drop_left _ _
        simp [hb, loopbackIP, hsm, hset, replaceLoopback]
      · simp [hb, replaceLoopback]
    rw [hstep]
    have hlen : (pre ++ [replaceLoopback iface b]).length = pre.length + 1 := by
      simp
    have hm' : m = (pre ++ [replaceLoopback iface b]).length + rest.length := by
      rw [hlen, List.length_cons] at *
      omega
    have := ih (pre ++ [replaceLoopback iface b]) m hm'
    rw [hlen] at this
    simp only [List.append_assoc, List.singleton_append] at this
    rw [this, List.map_cons]

theorem rewriteBinds_false (iface : String) (binds : List PortBinding) :
    rewriteBinds iface false binds = some (binds.map (replaceLoopback iface)) := by
  rw [rewriteBinds, List.range_eq_range']
  have := foldl_rewriteStep_false iface binds [] binds.length (by simp)
  simp only [List.nil_append, List.length_nil] at this
  rw [this]
  simp

theorem rewriteTable_false (iface : String) (out : PortMap) :
    rewriteTable iface false out =
      some (out.map fun e => (e.1, e.2.map (replaceLoopback iface))) := by
  induction out with
  | nil => rfl
  | cons e rest ih =>
    rw [rewriteTable, List.mapM_cons, rewriteBinds_false]
    rw [rewriteTable] at ih
    rw [ih]
    rfl

/-!
## All bindings accumulated under one key are identical

Every binding the builder appends under key `k` is `ipv6Binding` of a port
whose rendered decimal string is forced by `k`, so any two of them coincide.
This makes the builder's output independent of Go's map iteration order.
-/

theorem mem_contrib_tcpKey {p : Int} {L : List Int} {b : PortBinding}
    (hb : b ∈ contrib (tcpKey p) L) : b = ipv6Binding p := by
  rw [contrib, List.mem_map] at hb
  obtain ⟨q, hq, rfl⟩ := hb
  have h2 := (List.mem_filter.mp hq).2
  rw [portHits, Bool.and_eq_true, Bool.or_eq_true, decide_eq_true_eq,
    decide_eq_true_eq] at h2
  rcases h2.2 with h | h
  · rw [tcpKey_injective h]
  · exact absurd h.symm (tcpKey_ne_udpKey p q)

theorem mem_contrib_udpKey {p : Int} {L : List Int} {b : PortBinding}
    (hb : b ∈ contrib (udpKey p) L) : b = ipv6Binding p := by
  rw [contrib, List.mem_map] at hb
  obtain ⟨q, hq, rfl⟩ := hb
  have h2 := (List.mem_filter.mp hq).2
  rw [portHits, Bool.and_eq_true, Bool.or_eq_true, decide_eq_true_eq,
    decide_eq_true_eq] at h2
  rcases h2.2 with h | h
  · exact absurd h (tcpKey_ne_udpKey q p)
  · rw [udpKey_injective h]

theorem contrib_mem_all_eq (k : String) (L : List Int) :
    ∀ b ∈ contrib k L, ∀ b' ∈ contrib k L, b = b' := by
  intro b hb b' hb'
  rw [contrib, List.mem_map] at hb hb'
  obtain ⟨q, hq, rfl⟩ := hb
  obtain ⟨q', hq', rfl⟩ := hb'
  have h2 := (List.mem_filter.mp hq).2
  have h2' := (List.mem_filter.mp hq').2
  rw [portHits, Bool.and_eq_true, Bool.or_eq_true, decide_eq_true_eq,
    decide_eq_true_eq] at h2 h2'
  rcases h2.2 with h | h <;> rcases h2'.2 with h' | h'
  · rw [tcpKey_injective (h.trans h'.symm)]
  · exact absurd (h.trans h'.symm) (tcpKey_ne_udpKey q q')
  · exact absurd (h'.trans h.symm) (tcpKey_ne_udpKey q' q)
  · rw [udpKey_injective (h.trans h'.symm)]

theorem eq_of_perm_of_all_eq {l l' : List PortBinding} (h : l.Perm l')
    (hall : ∀ x ∈ l, ∀ y ∈ l, x = y) : l = l' := by
  cases l with
  | nil => exact (h.symm.eq_nil).symm
  | cons a t =>
    have h1 : ∀ b ∈ a :: t, b = a := fun b hb => hall b hb a (List.mem_cons_self _ _)
    have h2 : ∀ b ∈ l', b = a := fun b hb => h1 b (h.mem_iff.mpr hb)
    rw [List.eq_replicate_of_mem h1, List.eq_replicate_of_mem h2, h.length_eq]

theorem contrib_perm (k : String) {L L' : List Int} (h : L.Perm L') :
    contrib k L = contrib k L' :=
  eq_of_perm_of_all_eq ((h.filter (portHits k)).map ipv6Binding)
    (contrib_mem_all_eq k L)

/-!
## TCP and UDP keys of the same port collect identical binding lists
-/

theorem portHits_tcp_udp (p q : Int) :
    portHits (tcpKey p) q = portHits (udpKey p) q := by
  have h1 : udpKey q ≠ tcpKey p := fun h => tcpKey_ne_udpKey p q h.symm
  have h2 : tcpKey q ≠ udpKey p := tcpKey_ne_udpKey q p
  by_cases hqp : q = p
  · subst hqp
    rw [portHits, portHits]
    simp [h1, h2]
  · have ht : tcpKey q ≠ tcpKey p := fun h => hqp (tcpKey_injective h)
    have hu : udpKey q ≠ udpKey p := fun h => hqp (udpKey_injective h)
    rw [portHits, portHits]
    simp [h1, h2, ht, hu]

theorem contrib_tcp_eq_udp (p : Int) (L : List Int) :
    contrib (tcpKey p) L = contrib (udpKey p) L := by
  rw [contrib, contrib, List.filter_congr (fun q _ => portHits_tcp_udp p q)]

/-!
## Invalid ports contribute nothing anywhere
-/

theorem contrib_invalid (p : Int) (hp : p < 1 ∨ p > 65535) (k : String)
    (hk : k = tcpKey p ∨ k = udpKey p) (L : List Int) : contrib k L = [] := by
  rw [contrib, List.filter_eq_nil_iff.mpr, List.map_nil]
  intro q hq
  rw [portHits, Bool.and_eq_true, Bool.or_eq_true, decide_eq_true_eq, decide_eq_true_eq]
  intro hcon
  have hqv : ¬(q < 1 ∨ q > 65535) := by simpa using hcon.1
  rcases hk with rfl | rfl
  · rcases hcon.2 with h | h
    · exact hqv (by rw [tcpKey_injective h]; exact hp)
    · exact tcpKey_ne_udpKey p q h.symm
  · rcases hcon.2 with h | h
    · exact tcpKey_ne_udpKey q p h
    · exact hqv (by rw [udpKey_injective h]; exact hp)

/-- Dropping the invalid ports from a port list does not change the fold. -/
theorem foldl_addPort_filter_valid (L : List Int) (out : PortMap) :
    (L.filter fun q => !decide (q < 1 ∨ q > 65535)).foldl addPort out =
      L.foldl addPort out := by
  induction L generalizing out with
  | nil => rfl
  | cons q L ih =>
    rw [List.filter_cons]
    by_cases hq : q < 1 ∨ q > 65535
    · simp only [hq, decide_True, Bool.not_true, Bool.false_eq_true, if_false,
        List.foldl_cons]
      rw [show addPort out q = out from by rw [addPort, if_pos hq]]
      exact ih out
    · simp only [hq, decide_False, Bool.not_false, if_true, List.foldl_cons]
      exact ih (addPort out q)

/-- The allocation with every invalid port deleted from its mappings. -/
def pruneInvalid (a : Allocations) : Allocations :=
  { a with
    mappings := a.mappings.map fun e =>
      (e.1, e.2.filter fun q => !decide (q < 1 ∨ q > 65535)) }

theorem Bindings_pruneInvalid (a : Allocations) :
    Bindings (pruneInvalid a) = Bindings a := by
  rw [Bindings_eq_foldl, Bindings_eq_foldl]
  have hports : portsOf (pruneInvalid a) =
      (portsOf a).filter fun q => !decide (q < 1 ∨ q > 65535) := by
    rw [portsOf, portsOf, pruneInvalid, List.filter_flatten]
    simp only [List.map_map]
    rfl
  rw [hports, foldl_addPort_filter_valid]

/-!
## State-passing translations of the three methods

The Go methods take the receiver `a *Allocations` and only ever read it;
the state-passing translation therefore threads the receiver through the
fold alongside the local `out` it builds.
-/

def BindingsRun (a : Allocations) : Allocations × PortMap :=
  a.mappings.foldl (fun st e => (st.1, e.2.foldl addPort st.2)) (a, [])

def DockerBindingsRun (a : Allocations) (pol : NetworkPolicy) :
    Allocations × Option PortMap :=
  ((BindingsRun a).1, rewriteTable pol.interface pol.ispn (BindingsRun a).2)

def ExposedRun (a : Allocations) (pol : NetworkPolicy) :
    Allocations × Option (List String) :=
  ((DockerBindingsRun a pol).1, (DockerBindingsRun a pol).2.map keysPM)

theorem foldl_run_eq (ms : List (String × List Int)) (st : Allocations × PortMap) :
    ms.foldl (fun st e => (st.1, e.2.foldl addPort st.2)) st =
      (st.1, ms.foldl (fun out e => e.2.foldl addPort out) st.2) := by
  induction ms generalizing st with
  | nil => rfl
  | cons e ms ih => rw [List.foldl_cons, ih, List.foldl_cons]

theorem BindingsRun_eq (a : Allocations) : BindingsRun a = (a, Bindings a) := by
  rw [BindingsRun, foldl_run_eq, Bindings]

/-!
## The claims
-/

/-- C1 (code bug): with `isolatedNetwork = true` the rewrite stage does NOT
remove every `127.0.0.1` entry.  On the table mapping `"8080/tcp"` to
`[loopback, loopback, other]` the in-place deletion
`out[p] = append(out[p][:i], out[p][i+1:]...)` executed inside
`for i, alloc := range binds` shifts the second loopback entry into the
deleted slot; the iteration then reads index 1 of the shared backing array,
sees `other`, and the surviving loopback entry is never examined, so it
remains in the output with the retained entry.  On `[loopback, loopback]`
the same loop even trips Go's slice bounds check (modelled as `none`).
This contradicts the required removal semantics (every loopback entry
absent, no skips, total on well-formed tables). -/
theorem rewrite_ispn_retains_loopback :
    rewriteTable ("10.0.0.5") true
        [("8080/tcp",
          [{ hostIP := "127.0.0.1", hostPort := "8080" },
           { hostIP := "127.0.0.1", hostPort := "8080" },
           { hostIP := "1.2.3.4", hostPort := "8080" }])] =
      some [("8080/tcp",
          [{ hostIP := "127.0.0.1", hostPort := "8080" },
           { hostIP := "1.2.3.4", hostPort := "8080" }])] ∧
    rewriteBinds ("10.0.0.5") true
        [{ hostIP := "127.0.0.1", hostPort := "8080" },
         { hostIP := "127.0.0.1", hostPort := "8080" }] = none := by
  exact ⟨rfl, rfl⟩

/-- C2: for every allocation and every port `p ∈ [1, 65535]` occurring in
some mappings entry, `Bindings` publishes exactly the two keys `"p/tcp"`
and `"p/udp"` for it, each holding bindings whose host IP is the IPv6
wildcard `"[::]"` and whose host port is the decimal rendering of `p` —
independent of the map key IP the port was listed under. -/
theorem bindings_valid_port_two_keys (a : Allocations) (p : Int)
    (h1 : 1 ≤ p) (h2 : p ≤ 65535) (hocc : ∃ e ∈ a.mappings, p ∈ e.2) :
    tcpKey p ∈ keysPM (Bindings a) ∧ udpKey p ∈ keysPM (Bindings a) ∧
    lookupPM (Bindings a) (tcpKey p) ≠ [] ∧
    lookupPM (Bindings a) (udpKey p) ≠ [] ∧
    (∀ b ∈ lookupPM (Bindings a) (tcpKey p),
      b.hostIP = "[::]" ∧ b.hostPort = toString p) ∧
    (∀ b ∈ lookupPM (Bindings a) (udpKey p),
      b.hostIP = "[::]" ∧ b.hostPort = toString p) := by
  obtain ⟨e, he, hpe⟩ := hocc
  have hports : p ∈ portsOf a := by
    rw [portsOf, List.mem_flatten]
    exact ⟨e.2, List.mem_map.mpr ⟨e, he, rfl⟩, hpe⟩
  have hvalid : ¬(p < 1 ∨ p > 65535) := by omega
  have hhit_t : portHits (tcpKey p) p = true := by
    rw [portHits]
    simp [hvalid]
  have hhit_u : portHits (udpKey p) p = true := by
    rw [portHits]
    simp [hvalid]
  have hmem_t : ipv6Binding p ∈ contrib (tcpKey p) (portsOf a) :=
    List.mem_map.mpr ⟨p, List.mem_filter.mpr ⟨hports, hhit_t⟩, rfl⟩
  have hmem_u : ipv6Binding p ∈ contrib (udpKey p) (portsOf a) :=
    List.mem_map.mpr ⟨p, List.mem_filter.mpr ⟨hports, hhit_u⟩, rfl⟩
  refine ⟨?_, ?_, ?_, ?_, ?_, ?_⟩
  · rw [mem_keysPM_Bindings]
    exact List.ne_nil_of_mem hmem_t
  · rw [mem_keysPM_Bindings]
    exact List.ne_nil_of_mem hmem_u
  · rw [lookupPM_Bindings]
    exact List.ne_nil_of_mem hmem_t
  · rw [lookupPM_Bindings]
    exact List.ne_nil_of_mem hmem_u
  · intro b hb
    rw [lookupPM_Bindings] at hb
    rw [mem_contrib_tcpKey hb]
    exact ⟨rfl, rfl⟩
  · intro b hb
    rw [lookupPM_Bindings] at hb
    rw [mem_contrib_udpKey hb]
    exact ⟨rfl, rfl⟩

theorem bindings_valid_port_two_keys_witness :
    ((1 : Int) ≤ 8080 ∧ (8080 : Int) ≤ 65535 ∧
      (∃ e ∈ ([("192.168.1.5", [8080])] : List (String × List Int)),
        (8080 : Int) ∈ e.2)) ∧
    tcpKey 8080 ∈ keysPM (Bindings ⟨false, "", 0, [("192.168.1.5", [8080])]⟩) :=
  ⟨⟨by decide, by decide, ⟨("192.168.1.5", [8080]), by decide, by decide⟩⟩,
    (bindings_valid_port_two_keys ⟨false, "", 0, [("192.168.1.5", [8080])]⟩ 8080
      (by decide) (by decide)
      ⟨("192.168.1.5", [8080]), by decide, by decide⟩).1⟩

/-- C3: with `isolatedNetwork = false` the rewrite stage maps every entry
through `replaceLoopback`: an entry whose host IP is `127.0.0.1` receives
the bridge interface address with its host port preserved, every other
entry is returned unchanged, and no entry is added, dropped or
reordered. -/
theorem rewrite_not_ispn_replaces_loopback (iface : String) (out : PortMap) :
    rewriteTable iface false out =
      some (out.map fun e => (e.1, e.2.map (replaceLoopback iface))) ∧
    (∀ b : PortBinding, b.hostIP = "127.0.0.1" →
      replaceLoopback iface b = { hostIP := iface, hostPort := b.hostPort }) ∧
    (∀ b : PortBinding, b.hostIP ≠ "127.0.0.1" → replaceLoopback iface b = b) := by
  refine ⟨rewriteTable_false iface out, ?_, ?_⟩
  · intro b hb
    rw [replaceLoopback, loopbackIP, if_pos hb]
  · intro b hb
    rw [replaceLoopback, loopbackIP, if_neg hb]

theorem rewrite_not_ispn_replaces_loopback_witness :
    rewriteTable ("10.0.0.5") false
        [("8080/tcp",
          [{ hostIP := "127.0.0.1", hostPort := "8080" },
           { hostIP := "[::]", hostPort := "8080" }])] =
      some [("8080/tcp",
          [{ hostIP := "10.0.0.5", hostPort := "8080" },
           { hostIP := "[::]", hostPort := "8080" }])] := by
  rw [(rewrite_not_ispn_replaces_loopback ("10.0.0.5")
    [("8080/tcp",
      [{ hostIP := "127.0.0.1", hostPort := "8080" },
       { hostIP := "[::]", hostPort := "8080" }])]).1]
  rfl

/-- C4: a port outside `[1, 65535]` occurring in the mappings is silently
skipped: neither of its protocol keys is present, its lookups are empty,
deleting all invalid ports from the mappings leaves the table unchanged,
and the derived `DockerBindings` table and `Exposed` set (which are exactly
the builder's table and its key set) carry no trace of it either — no
error value is involved anywhere. -/
theorem bindings_invalid_port_no_trace (a : Allocations) (pol : NetworkPolicy)
    (p : Int) (hp : p < 1 ∨ p > 65535) :
    tcpKey p ∉ keysPM (Bindings a) ∧ udpKey p ∉ keysPM (Bindings a) ∧
    lookupPM (Bindings a) (tcpKey p) = [] ∧
    lookupPM (Bindings a) (udpKey p) = [] ∧
    Bindings (pruneInvalid a) = Bindings a ∧
    DockerBindings a pol = some (Bindings a) ∧
    Exposed a pol = some (keysPM (Bindings a)) := by
  have ht := contrib_invalid p hp (tcpKey p) (Or.inl rfl) (portsOf a)
  have hu := contrib_invalid p hp (udpKey p) (Or.inr rfl) (portsOf a)
  refine ⟨?_, ?_, ?_, ?_, Bindings_pruneInvalid a, dockerBindings_eq_Bindings a pol,
    exposed_eq_keys a pol⟩
  · simp [mem_keysPM_Bindings, ht]
  · simp [mem_keysPM_Bindings, hu]
  · rw [lookupPM_Bindings, ht]
  · rw [lookupPM_Bindings, hu]

theorem bindings_invalid_port_no_trace_witness :
    ((70000 : Int) < 1 ∨ (70000 : Int) > 65535) ∧
    tcpKey 70000 ∉ keysPM (Bindings ⟨false, "", 0, [("a", [0, -5, 70000, 8080])]⟩) :=
  ⟨by decide,
    (bindings_invalid_port_no_trace ⟨false, "", 0, [("a", [0, -5, 70000, 8080])]⟩
      ⟨"172.18.0.1", false⟩ 70000 (by decide)).1⟩

/-- C5: `Exposed` is exactly the set of protocol-qualified port keys
present in the rewritten binding table, independent of how many binding
entries each key holds. -/
theorem exposed_is_rewritten_table_keys (a : Allocations) (pol : NetworkPolicy)
    (t : PortMap) (h : DockerBindings a pol = some t) :
    Exposed a pol = some (keysPM t) := by
  rw [Exposed, h]
  rfl

theorem exposed_is_rewritten_table_keys_witness :
    DockerBindings ⟨false, "", 0, [("0.0.0.0", [25565])]⟩ ⟨"172.18.0.1", false⟩ =
      some [("25565/tcp", [ipv6Binding 25565]), ("25565/udp", [ipv6Binding 25565])] ∧
    Exposed ⟨false, "", 0, [("0.0.0.0", [25565])]⟩ ⟨"172.18.0.1", false⟩ =
      some ["25565/tcp", "25565/udp"] :=
  ⟨rfl,
    exposed_is_rewritten_table_keys ⟨false, "", 0, [("0.0.0.0", [25565])]⟩
      ⟨"172.18.0.1", false⟩
      [("25565/tcp", [ipv6Binding 25565]), ("25565/udp", [ipv6Binding 25565])] rfl⟩

/-- C6: none of the three operations mutates the allocation: in the
state-passing translation of the Go methods (the read-only receiver
threaded through, the local table built fresh) the receiver — and with it
the `mappings` table — comes back unchanged, while the result component
equals the pure functions' output. -/
theorem pipeline_preserves_allocation (a : Allocations) (pol : NetworkPolicy) :
    (BindingsRun a).1 = a ∧ (DockerBindingsRun a pol).1 = a ∧
    (ExposedRun a pol).1 = a ∧ (BindingsRun a).1.mappings = a.mappings ∧
    (BindingsRun a).2 = Bindings a ∧
    (DockerBindingsRun a pol).2 = DockerBindings a pol ∧
    (ExposedRun a pol).2 = Exposed a pol := by
  have h := BindingsRun_eq a
  refine ⟨by rw [h], by rw [DockerBindingsRun, h], by rw [ExposedRun, DockerBindingsRun, h],
    by rw [h], by rw [h], ?_, ?_⟩
  · rw [DockerBindingsRun, h, DockerBindings]
  · rw [ExposedRun, DockerBindingsRun, h, Exposed, DockerBindings]

/-- C7: the pipeline is total: for every allocation and every policy,
`DockerBindings` and `Exposed` return a value (no error, no runtime
failure), and an empty mappings table yields an empty binding table, an
empty rewritten table and an empty exposure set. -/
theorem pipeline_total (a : Allocations) (pol : NetworkPolicy) :
    (∃ t, DockerBindings a pol = some t) ∧ (∃ s, Exposed a pol = some s) ∧
    (a.mappings = [] →
      Bindings a = [] ∧ DockerBindings a pol = some [] ∧ Exposed a pol = some []) := by
  refine ⟨⟨Bindings a, dockerBindings_eq_Bindings a pol⟩,
    ⟨keysPM (Bindings a), exposed_eq_keys a pol⟩, ?_⟩
  intro h
  have hb : Bindings a = [] := by rw [Bindings, h]; rfl
  refine ⟨hb, ?_, ?_⟩
  · rw [dockerBindings_eq_Bindings, hb]
  · rw [exposed_eq_keys, hb]
    rfl

theorem pipeline_total_witness :
    Bindings ⟨false, "", 0, []⟩ = [] ∧
    DockerBindings ⟨false, "", 0, []⟩ ⟨"172.18.0.1", true⟩ = some [] ∧
    Exposed ⟨false, "", 0, []⟩ ⟨"172.18.0.1", true⟩ = some [] :=
  (pipeline_total ⟨false, "", 0, []⟩ ⟨"172.18.0.1", true⟩).2.2 rfl

/-- C8: `Bindings` is structurally deterministic: its output does not
depend on the order in which Go's randomized map iteration visits the
mappings entries — for any permutation of the entry list the two tables
agree on every key's binding list and on key membership, so two runs over
the same unmutated allocation are structurally identical. -/
theorem bindings_iteration_order_irrelevant (a b : Allocations)
    (h : a.mappings.Perm b.mappings) :
    (∀ k, lookupPM (Bindings a) k = lookupPM (Bindings b) k) ∧
    (∀ k, k ∈ keysPM (Bindings a) ↔ k ∈ keysPM (Bindings b)) := by
  have hp : (portsOf a).Perm (portsOf b) := (h.map Prod.snd).flatten
  constructor
  · intro k
    rw [lookupPM_Bindings, lookupPM_Bindings, contrib_perm k hp]
  · intro k
    rw [mem_keysPM_Bindings, mem_keysPM_Bindings, contrib_perm k hp]

theorem bindings_iteration_order_irrelevant_witness :
    lookupPM (Bindings ⟨false, "", 0, [("a", [25565]), ("b", [80])]⟩) "25565/tcp" =
      lookupPM (Bindings ⟨false, "", 0, [("b", [80]), ("a", [25565])]⟩) "25565/tcp" :=
  (bindings_iteration_order_irrelevant
      ⟨false, "", 0, [("a", [25565]), ("b", [80])]⟩
      ⟨false, "", 0, [("b", [80]), ("a", [25565])]⟩
      (List.Perm.swap ("b", [80]) ("a", [25565]) [])).1 ("25565/tcp")

/-- C9: for every allocation the composed pipeline is policy-independent:
`DockerBindings` returns exactly the table `Bindings` built — the builder
only ever emits the host IP `"[::]"`, so the loopback rewrite never fires —
and consequently `Exposed` is the same under any two policies. -/
theorem dockerBindings_policy_independent (a : Allocations)
    (pol pol' : NetworkPolicy) :
    DockerBindings a pol = some (Bindings a) ∧ Exposed a pol = Exposed a pol' := by
  refine ⟨dockerBindings_eq_Bindings a pol, ?_⟩
  rw [exposed_eq_keys, exposed_eq_keys]

/-- C10: TCP and UDP entries come in matched pairs: for every port value
the builder's table contains `"p/tcp"` exactly when it contains `"p/udp"`,
and the binding lists stored under the two keys are identical — same
length, pairwise the same host IP and host port. -/
theorem bindings_tcp_udp_paired (a : Allocations) (p : Int) :
    lookupPM (Bindings a) (tcpKey p) = lookupPM (Bindings a) (udpKey p) ∧
    (tcpKey p ∈ keysPM (Bindings a) ↔ udpKey p ∈ keysPM (Bindings a)) := by
  have hc := contrib_tcp_eq_udp p (portsOf a)
  constructor
  · rw [lookupPM_Bindings, lookupPM_Bindings, hc]
  · rw [mem_keysPM_Bindings, mem_keysPM_Bindings, hc]

end Wings
